import Mathlib

/-!
# Verification of the `exchange_rate_calculator` core (src/lib.rs)

Shallow embedding of the Rust command-line currency converter.  Rust `String`s
are Lean `String`s (a wrapper around `List Char`), Rust `f64` amounts and rates
are modelled as exact rationals `ℚ`, Rust `u64` arithmetic is `Nat` with
explicit reduction modulo `2^64` where the source wraps, and the filesystem /
network / serde collaborators are passed in explicitly as data.
-/

/-! ## Basic character classes (the ranges used by the Rust `match` arms) -/

/-- `'0'..='9'` (Rust char range pattern). -/
def is_digit (c : Char) : Bool := 48 ≤ c.toNat && c.toNat ≤ 57

/-- `'A'..='Z' | 'a'..='z'` (the two ASCII letter range patterns). -/
def is_ascii_alpha (c : Char) : Bool :=
  (65 ≤ c.toNat && c.toNat ≤ 90) || (97 ≤ c.toNat && c.toNat ≤ 122)

/-- `'A'..='Z' | 'a'..='z' | '_'`: the letter arm of the scanner. -/
def isAlphaUnd (c : Char) : Bool := is_ascii_alpha c || c == '_'

/-- Characters routed to the numeric buffer by the scanner: digits, `'.'`, `','`. -/
def isNumClass (c : Char) : Bool := (is_digit c || c == '.') || c == ','

/-- All characters having a non-error arm in the scanner's `match`. -/
def isRecognizedChar (c : Char) : Bool :=
  (is_digit c || c == '.') || c == ',' || c == '=' || isAlphaUnd c

/-- The comma-to-dot normalization performed by the `','` arm. -/
def commaToDot (c : Char) : Char := if c == ',' then '.' else c

/-! ## Rust `f64` parsing, restricted to the reachable alphabet

The scanner's numeric buffer only ever contains digits and `'.'` (commas are
rewritten to `'.'` on entry).  On that alphabet Rust's `str::parse::<f64>()`
succeeds exactly when the string has at least one digit and at most one dot
(`"1."`, `".5"`, `"12"` parse; `""`, `"."`, `"1.2.3"` do not).  The numeric
value is modelled exactly, as a rational. -/

/-- Fold a digit list into a natural number (most significant first). -/
def digitsToNat (cs : List Char) : Nat :=
  cs.foldl (fun a c => a * 10 + (c.toNat - 48)) 0

/-- Exact value of a digits-and-at-most-one-dot decimal literal. -/
def decValue (cs : List Char) : ℚ :=
  let ip := cs.takeWhile (fun c => !(c == '.'))
  let fp := (cs.dropWhile (fun c => !(c == '.'))).drop 1
  (digitsToNat ip : ℚ) + (digitsToNat fp : ℚ) / (10 : ℚ) ^ fp.length

/-- Success condition of Rust `f64` parsing on a digits/dot string. -/
def ParseF64Cond (cs : List Char) : Prop :=
  cs.all (fun c => is_digit c || c == '.') = true ∧
  cs.any is_digit = true ∧
  cs.countP (fun c => c == '.') ≤ 1

instance : DecidablePred ParseF64Cond := fun cs => by
  unfold ParseF64Cond; infer_instance

/-- Model of `num.parse::<f64>()` on the scanner's numeric buffer. -/
def parse_f64 (s : String) : Option ℚ :=
  if ParseF64Cond s.data then some (decValue s.data) else none

/-! ## Data model: `ExchangeProcess` (src/lib.rs lines 25-44) -/

/-- The mutable conversion state threaded through `run` (`from` is a Lean
keyword, so the field is `from_`). -/
structure ExchangeProcess where
  from_ : String
  to_ : String
  rate : ℚ
  amount_from : ℚ
  amount_to : ℚ
deriving DecidableEq, Repr

/-- `ExchangeProcess::new()`. -/
def ExchangeProcess.new : ExchangeProcess :=
  { from_ := "", to_ := "", rate := 0, amount_from := 0, amount_to := 0 }

/-! ## Stage 1 of `parse_arguments`: the token loop (lines 286-325) -/

/-- `param.starts_with('-')`. -/
def starts_with_dash (s : String) : Bool :=
  s.data.head? == some '-'

/-- Outcome of the token-classification loop.  `-h`/`--help` and
`-V`/`--version` call `std::process::exit(0)` in the source; they are modelled
as distinct outcomes. -/
inductive Stage1Out where
  | exitHelp
  | exitVersion
  | usual
  | completeList
  | unknownArg (tok : String)
  | expr (e : String)
deriving DecidableEq, Repr

/-- The `while let Some(param) = params.next()` loop, accumulating `expr`. -/
def stage1_loop : List String → String → Stage1Out
  | [], expr => .expr expr
  | p :: rest, expr =>
    if p == "-h" || p == "--help" then .exitHelp
    else if p == "-V" || p == "--version" then .exitVersion
    else if p == "-lu" || p == "--list-usual" || p == "-l" || p == "--list" then .usual
    else if p == "-la" || p == "--list-all" then .completeList
    else if p == "->" || p == "=>" || p == "=" || p == ">" then
      stage1_loop rest (expr ++ "=")
    else if starts_with_dash p then .unknownArg p
    else stage1_loop rest (expr ++ p)

/-! ## Stage 2 of `parse_arguments`: the character scan (lines 327-365) -/

/-- Local state of the `for c in expr.chars()` loop.  The source appends
directly into the caller's `ExchangeProcess`, so it is carried here. -/
structure ScanState where
  exchange : ExchangeProcess
  fr_set : Bool
  num : String
  err : String
deriving DecidableEq, Repr

/-- One iteration of the character `match` (lines 333-354). -/
def scan_step (st : ScanState) (c : Char) : ScanState :=
  if is_digit c || c == '.' then
    { st with num := st.num.push c }
  else if c == ',' then
    { st with num := st.num ++ "." }
  else if c == '=' then
    { st with fr_set := true }
  else if is_ascii_alpha c || c == '_' then
    if st.fr_set = false then
      { st with exchange :=
          { st.exchange with from_ := st.exchange.from_ ++ c.toUpper.toString } }
    else
      { st with exchange :=
          { st.exchange with to_ := st.exchange.to_ ++ c.toUpper.toString } }
  else
    { st with err := st.err.push c }

/-- Result of `parse_arguments`.  The source's single `ArgumentError` variant is
split by its three distinct reporting sites (no arguments, unknown `-` flag,
unknown expression) so that the reported payload is observable; `-h`/`-V`
process exits are `ExitedHelp`/`ExitedVersion`. -/
inductive ParseRet where
  | Success
  | ShowUsualList
  | ShowCompleteList
  | ArgumentErrorNoArgs
  | ArgumentErrorUnknownArg (tok : String)
  | ArgumentErrorUnknownExpression (fragment : String)
  | ExitedHelp
  | ExitedVersion
deriving DecidableEq, Repr

/-- Lines 327-365: scan the concatenated expression, report accumulated invalid
characters, otherwise parse the numeric buffer with default `1.0`. -/
def parse_expression (exchange : ExchangeProcess) (e : String) :
    ParseRet × ExchangeProcess :=
  let st := e.data.foldl scan_step
    { exchange := exchange, fr_set := false, num := "", err := "" }
  if st.err.length > 0 then
    (.ArgumentErrorUnknownExpression st.err, st.exchange)
  else
    (.Success, { st.exchange with amount_from := (parse_f64 st.num).getD 1 })

/-- `parse_arguments` (lines 272-367); `args` are the CLI tokens after the
program name (`env::args().skip(1)`). -/
def parse_arguments (args : List String) (exchange : ExchangeProcess) :
    ParseRet × ExchangeProcess :=
  if args.length = 0 then (.ArgumentErrorNoArgs, exchange)
  else
    match stage1_loop args "" with
    | .exitHelp => (.ExitedHelp, exchange)
    | .exitVersion => (.ExitedVersion, exchange)
    | .usual => (.ShowUsualList, exchange)
    | .completeList => (.ShowCompleteList, exchange)
    | .unknownArg t => (.ArgumentErrorUnknownArg t, exchange)
    | .expr e => parse_expression exchange e

/-! ## `check_rates_file` (lines 101-146) -/

/-- Filesystem/clock facts consumed by `check_rates_file`: existence of the
snapshot, whether `File::open` and `metadata()` succeed, the mtime in epoch
seconds (`none` when `modified()`/`duration_since` fails, in which case the
source leaves `file_date = 0`), and the current time likewise. -/
structure FsState where
  fileExists : Bool
  openOk : Bool
  metaOk : Bool
  modified : Option Nat
  now : Option Nat
deriving DecidableEq, Repr

/-- Rust `u64` wrapping subtraction (release-mode semantics of
`cur_date - file_date`). -/
def u64_sub (a b : Nat) : Nat := (a % 2 ^ 64 + (2 ^ 64 - b % 2 ^ 64)) % 2 ^ 64

/-- Lines 101-146: missing file, failed open, or failed metadata give `false`;
otherwise stale iff the wrapped age is `>= 3600`. -/
def check_rates_file (fs : FsState) : Bool :=
  if fs.fileExists = false then false
  else if fs.openOk = false then false
  else if fs.metaOk = false then false
  else
    let file_date := fs.modified.getD 0
    let cur_date := fs.now.getD 0
    if 3600 ≤ u64_sub cur_date file_date then false else true

/-! ## `download_rates_file` (lines 148-180) -/

/-- `File::create` success and curl transfer success are the two failure
points that make the function return `false`. -/
def download_rates_file (createOk netOk : Bool) : Bool := createOk && netOk

/-! ## `load_rates_file_from_disk` (lines 182-220) -/

/-- serde_json `Value`: every JSON number that serde accepts is a finite
double, modelled exactly as a rational. -/
inductive JValue where
  | null
  | bool (b : Bool)
  | num (v : ℚ)
  | str (s : String)
  | arr (elems : List JValue)
  | obj (fields : List (String × JValue))

/-- `Value::as_object`. -/
def JValue.asObject : JValue → Option (List (String × JValue))
  | .obj fields => some fields
  | _ => none

/-- `Value::as_f64`: `Some` exactly on numbers. -/
def JValue.asF64 : JValue → Option ℚ
  | .num v => some v
  | _ => none

/-- `Map::get(key)` on a serde object. -/
def objGet (fields : List (String × JValue)) (k : String) : Option JValue :=
  (fields.find? (fun p => p.1 == k)).map (·.2)

/-- The chain `json.as_object().and_then(|o| o.get("rates")).and_then(|r| r.as_object())`. -/
def json_rates (j : JValue) : Option (List (String × JValue)) :=
  (j.asObject.bind (fun o => objGet o ("rates"))).bind JValue.asObject

/-- `HashMap::insert` on an association list (replaces an existing binding). -/
def hm_insert (m : List (String × ℚ)) (k : String) (v : ℚ) : List (String × ℚ) :=
  m.filter (fun p => !(p.1 == k)) ++ [(k, v)]

/-- `HashMap::contains_key`. -/
def hm_contains (m : List (String × ℚ)) (k : String) : Bool :=
  m.any (fun p => p.1 == k)

/-- `HashMap` indexing (`rates[&key]`), defaulting to `0` off-domain (the
source only indexes after `contains_key` guards). -/
def hm_get (m : List (String × ℚ)) (k : String) : ℚ :=
  ((m.find? (fun p => p.1 == k)).map (·.2)).getD 0

/-- The `for rate in rates.iter()` insertion loop; `none` models the
`rate.1.as_f64().unwrap()` panic on a non-numeric entry. -/
def ratesLoop (m : List (String × ℚ)) : List (String × JValue) → Option (List (String × ℚ))
  | [] => some m
  | (k, v) :: rest =>
    match v.asF64 with
    | none => none
    | some q => ratesLoop (hm_insert m k q) rest

/-- Three-way outcome of `load_rates_file_from_disk`: `fail` is `return false`
(the caller prints an error and exits 2); `panicked` is an `unwrap` panic. -/
inductive LoadOutcome where
  | ok (rates : List (String × ℚ))
  | fail
  | panicked
deriving DecidableEq

/-- Lines 182-220.  `openOk`: `File::open` success; `content`: the
newline-stripped file text; `parsed`: the `serde_json::from_str` result
(`none` = malformed JSON, which the source `unwrap`s). -/
def load_rates_file_from_disk (openOk : Bool) (content : String)
    (parsed : Option JValue) : LoadOutcome :=
  if openOk = false then .fail
  else if content.length = 0 then .fail
  else
    match parsed with
    | none => .panicked
    | some j =>
      match json_rates j with
      | none => .panicked
      | some entries =>
        match ratesLoop [] entries with
        | none => .panicked
        | some m => .ok m

/-! ## The conversion step and `run` (lines 46-99) -/

/-- Lines 77-87: the currency lookups (with their exit codes) and the cross
rate computation. -/
inductive ConvResult where
  | notFound (code : String) (exitCode : Int)
  | ok (e : ExchangeProcess)
deriving DecidableEq, Repr

/-- `from` is checked first (exit 4), then `to` (exit 5); otherwise
`rate = rates[to] / rates[from]`, `amount_to = amount_from * rate`. -/
def convert_step (rates : List (String × ℚ)) (e : ExchangeProcess) : ConvResult :=
  if hm_contains rates e.from_ = false then .notFound e.from_ 4
  else if hm_contains rates e.to_ = false then .notFound e.to_ 5
  else
    let rate := hm_get rates e.to_ / hm_get rates e.from_
    .ok { e with rate := rate, amount_to := e.amount_from * rate }

/-- Observable calls made by `run`, in order. -/
inductive Event where
  | checkRates
  | download
  | loadRates
  | parseArgs
deriving DecidableEq, Repr

/-- How the process ends: an explicit return/exit code, or an `unwrap` panic. -/
inductive RunOutcome where
  | exit (code : Int)
  | panicked
deriving DecidableEq, Repr

/-- The external world as `run` observes it. -/
structure Env where
  args : List String
  fs : FsState
  createOk : Bool
  netOk : Bool
  loadOpenOk : Bool
  content : String
  parsed : Option JValue

/-- Result of a run: the ordered event trace, the outcome, and the final
`ExchangeProcess`. -/
structure RunResult where
  events : List Event
  outcome : RunOutcome
  exchange : ExchangeProcess
deriving DecidableEq, Repr

/-- Lines 58-97 of `run`: everything after the freshness/refresh phase. -/
def run_after_cache (env : Env) (evs : List Event) : RunResult :=
  match load_rates_file_from_disk env.loadOpenOk env.content env.parsed with
  | .fail => ⟨evs ++ [.loadRates], .exit 2, ExchangeProcess.new⟩
  | .panicked => ⟨evs ++ [.loadRates], .panicked, ExchangeProcess.new⟩
  | .ok rates =>
    let evs2 := evs ++ [.loadRates, .parseArgs]
    match parse_arguments env.args ExchangeProcess.new with
    | (.ExitedHelp, e) => ⟨evs2, .exit 0, e⟩
    | (.ExitedVersion, e) => ⟨evs2, .exit 0, e⟩
    | (.ShowUsualList, e) => ⟨evs2, .exit 0, e⟩
    | (.ShowCompleteList, e) => ⟨evs2, .exit 0, e⟩
    | (.ArgumentErrorNoArgs, e) => ⟨evs2, .exit 3, e⟩
    | (.ArgumentErrorUnknownArg _, e) => ⟨evs2, .exit 3, e⟩
    | (.ArgumentErrorUnknownExpression _, e) => ⟨evs2, .exit 3, e⟩
    | (.Success, e) =>
      match convert_step rates e with
      | .notFound _ code => ⟨evs2, .exit code, e⟩
      | .ok e2 => ⟨evs2, .exit 0, e2⟩

/-- `run` (lines 46-99): freshness check first, refresh on stale, then load,
then argument parsing, then conversion. -/
def run (env : Env) : RunResult :=
  if check_rates_file env.fs = false then
    if download_rates_file env.createOk env.netOk = false then
      ⟨[.checkRates, .download], .exit 1, ExchangeProcess.new⟩
    else run_after_cache env [.checkRates, .download]
  else run_after_cache env [.checkRates]

/-! ## Specification-side definitions used to state the claims -/

/-- A valid decimal string in the claims' sense: digits with at most one
decimal separator, which may be `'.'` or `','`, and at least one digit. -/
def ValidDecimal (s : String) : Prop :=
  s.data.all isNumClass = true ∧
  s.data.any is_digit = true ∧
  s.data.countP (fun c => c == '.' || c == ',') ≤ 1

instance : DecidablePred ValidDecimal := fun s => by
  unfold ValidDecimal; infer_instance

/-- Per-character ASCII uppercasing of a string (what the scanner does to
currency-code letters). -/
def upperStr (s : String) : String := ⟨s.data.map Char.toUpper⟩

/-- Comma normalization of a claimed amount string. -/
def normComma (s : String) : String := ⟨s.data.map commaToDot⟩

/-! ## Concrete fixtures used by witnesses and counterexamples -/

/-- The test rate table `{"EUR": 1.0, "USD": 1.1}`. -/
def ratesEx : List (String × ℚ) := [("EUR", 1), ("USD", mkRat 11 10)]

/-- The test request `{from: "EUR", to: "USD", amount_from: 10}`. -/
def reqEx : ExchangeProcess :=
  { ExchangeProcess.new with from_ := "EUR", to_ := "USD", amount_from := 10 }

/-- An environment whose CLI input is just the `--help` flag while the cached
snapshot is missing (stale), with a working network and a well-formed snapshot. -/
def envHelp : Env :=
  { args := ["--help"], fs := ⟨false, true, true, none, none⟩, createOk := true,
    netOk := true, loadOpenOk := true, content := "r",
    parsed := some (.obj [("rates", .obj [])]) }

/-- An environment with a fresh snapshot whose payload is non-empty but is not
well-formed JSON (`serde_json::from_str` fails, modelled by `parsed = none`). -/
def envBadJson : Env :=
  { args := ["1EUR=USD"], fs := ⟨true, true, true, some 1000, some 1000⟩,
    createOk := true, netOk := true, loadOpenOk := true, content := "notjson",
    parsed := none }

/-! ## String plumbing lemmas -/

theorem str_data_append (s t : String) : (s ++ t).data = s.data ++ t.data := by
  cases s; cases t; rfl

theorem str_data_push (s : String) (c : Char) : (s.push c).data = s.data ++ [c] := by
  cases s; rfl

theorem str_data_char_append (s : String) (c : Char) :
    (s ++ c.toString).data = s.data ++ [c] := by
  cases s; rfl

theorem str_empty_append (s : String) : "" ++ s = s := by
  cases s; rfl

theorem char_toString_data (c : Char) : c.toString.data = [c] := rfl

theorem str_length_data (s : String) : s.length = s.data.length := rfl

/-! ## Character-class lemmas -/

theorem beq_false_of_pred (P : Char → Bool) {c d : Char} (hc : P c = true)
    (hd : P d = false) : (c == d) = false := by
  cases hb : c == d with
  | false => rfl
  | true =>
    rw [eq_of_beq hb] at hc
    exact Bool.noConfusion (hc.symm.trans hd)

theorem numclass_not_eqmark {c : Char} (h : isNumClass c = true) : (c == '=') = false :=
  beq_false_of_pred isNumClass h (by decide)

theorem alphaUnd_not_eqmark {c : Char} (h : isAlphaUnd c = true) : (c == '=') = false :=
  beq_false_of_pred isAlphaUnd h (by decide)

theorem alphaUnd_not_comma {c : Char} (h : isAlphaUnd c = true) : (c == ',') = false :=
  beq_false_of_pred isAlphaUnd h (by decide)

theorem digitdot_not_comma {c : Char} (h : (is_digit c || c == '.') = true) :
    (c == ',') = false :=
  beq_false_of_pred (fun c => is_digit c || c == '.') h (by decide)

theorem digit_not_comma {c : Char} (h : is_digit c = true) : (c == ',') = false :=
  beq_false_of_pred is_digit h (by decide)

theorem alphaUnd_not_digitdot {c : Char} (h : isAlphaUnd c = true) :
    (is_digit c || c == '.') = false := by
  cases hx : (is_digit c || c == '.') with
  | false => rfl
  | true =>
    exfalso
    rcases Bool.or_eq_true_iff.mp hx with hd | hdot
    · rcases Bool.or_eq_true_iff.mp h with ha | hu
      · simp only [is_ascii_alpha, Bool.or_eq_true, Bool.and_eq_true,
          decide_eq_true_eq] at ha
        simp only [is_digit, Bool.and_eq_true, decide_eq_true_eq] at hd
        omega
      · rw [eq_of_beq hu] at hd; exact absurd hd (by decide)
    · rw [eq_of_beq hdot] at h; exact absurd h (by decide)

theorem numclass_not_alpha {c : Char} (h : isNumClass c = true) : isAlphaUnd c = false := by
  cases hx : isAlphaUnd c with
  | false => rfl
  | true =>
    exfalso
    have h1 := alphaUnd_not_digitdot hx
    have h2 := alphaUnd_not_comma hx
    rw [isNumClass, h1, h2] at h
    exact Bool.noConfusion h

theorem alpha_not_numclass {c : Char} (h : isAlphaUnd c = true) : isNumClass c = false := by
  rw [isNumClass, alphaUnd_not_digitdot h, alphaUnd_not_comma h]
  rfl

theorem reco_of_numclass {c : Char} (h : isNumClass c = true) : isRecognizedChar c = true := by
  rcases Bool.or_eq_true_iff.mp h with h1 | h2
  · simp [isRecognizedChar, h1]
  · simp [isRecognizedChar, h2]

theorem reco_of_alpha {c : Char} (h : isAlphaUnd c = true) : isRecognizedChar c = true := by
  simp [isRecognizedChar, h]

theorem reco_digitdot {c : Char} (h : isRecognizedChar c = false) :
    (is_digit c || c == '.') = false := by
  cases hx : (is_digit c || c == '.') with
  | false => rfl
  | true => exact absurd h (by simp [isRecognizedChar, hx])

theorem reco_comma {c : Char} (h : isRecognizedChar c = false) : (c == ',') = false := by
  cases hx : (c == ',') with
  | false => rfl
  | true => exact absurd h (by simp [isRecognizedChar, hx])

theorem reco_eqmark {c : Char} (h : isRecognizedChar c = false) : (c == '=') = false := by
  cases hx : (c == '=') with
  | false => rfl
  | true => exact absurd h (by simp [isRecognizedChar, hx])

theorem reco_alpha {c : Char} (h : isRecognizedChar c = false) : isAlphaUnd c = false := by
  cases hx : isAlphaUnd c with
  | false => rfl
  | true => exact absurd h (by simp [isRecognizedChar, hx])

/-! ## `scan_step` branch lemmas -/

theorem scan_step_digitdot {c : Char} (st : ScanState)
    (h : (is_digit c || c == '.') = true) :
    scan_step st c = { st with num := st.num.push c } := by
  simp [scan_step, h]

theorem scan_step_comma (st : ScanState) :
    scan_step st ',' = { st with num := st.num ++ "." } := by
  have h1 : is_digit ',' = false := by decide
  have h2 : ((',' : Char) == '.') = false := by decide
  simp [scan_step, h1, h2]

theorem scan_step_eqmark (st : ScanState) :
    scan_step st '=' = { st with fr_set := true } := by
  have h1 : is_digit '=' = false := by decide
  have h1' : (('=' : Char) == '.') = false := by decide
  have h2 : (('=' : Char) == ',') = false := by decide
  simp [scan_step, h1, h1', h2]

theorem scan_step_alpha {c : Char} (st : ScanState) (h : isAlphaUnd c = true) :
    scan_step st c =
      if st.fr_set = false then
        { st with exchange :=
            { st.exchange with from_ := st.exchange.from_ ++ c.toUpper.toString } }
      else
        { st with exchange :=
            { st.exchange with to_ := st.exchange.to_ ++ c.toUpper.toString } } := by
  have h1 := alphaUnd_not_digitdot h
  have h2 := alphaUnd_not_comma h
  have h3 := alphaUnd_not_eqmark h
  have h4 : (is_ascii_alpha c || c == '_') = true := h
  simp [scan_step, h1, h2, h3, h4]

theorem scan_step_bad {c : Char} (st : ScanState) (h : isRecognizedChar c = false) :
    scan_step st c = { st with err := st.err.push c } := by
  have h4 : (is_ascii_alpha c || c == '_') = false := reco_alpha h
  simp [scan_step, reco_digitdot h, reco_comma h, reco_eqmark h, h4]

/-! ## Per-step component characterizations -/

theorem scan_step_num_data (st : ScanState) (c : Char) :
    (scan_step st c).num.data =
      st.num.data ++ (if isNumClass c = true then [commaToDot c] else []) := by
  cases h1 : (is_digit c || c == '.') with
  | true =>
    rw [scan_step_digitdot st h1]
    have hnc : isNumClass c = true := by simp [isNumClass, h1]
    have hcd : commaToDot c = c := by simp [commaToDot, digitdot_not_comma h1]
    simp [str_data_push, hnc, hcd]
  | false =>
    cases h2 : c == ',' with
    | true =>
      rw [eq_of_beq h2, scan_step_comma]
      have hnc : isNumClass ',' = true := by decide
      have hcd : commaToDot ',' = '.' := by decide
      rw [hnc, hcd]
      simp [str_data_append]
    | false =>
      cases h3 : c == '=' with
      | true =>
        rw [eq_of_beq h3, scan_step_eqmark]
        have hnc : isNumClass '=' = false := by decide
        simp [hnc]
      | false =>
        have hnc : isNumClass c = false := by simp [isNumClass, h1, h2]
        cases h4 : isAlphaUnd c with
        | true =>
          rw [scan_step_alpha st h4]
          cases hf : st.fr_set <;> simp [hf, hnc]
        | false =>
          have hr : isRecognizedChar c = false := by
            simp [isRecognizedChar, h1, h2, h3, h4]
          rw [scan_step_bad st hr]
          simp [hnc]

theorem scan_step_err_data (st : ScanState) (c : Char) :
    (scan_step st c).err.data =
      st.err.data ++ (if isRecognizedChar c = true then [] else [c]) := by
  cases h1 : (is_digit c || c == '.') with
  | true =>
    rw [scan_step_digitdot st h1]
    have hr : isRecognizedChar c = true := by simp [isRecognizedChar, h1]
    simp [hr]
  | false =>
    cases h2 : c == ',' with
    | true =>
      rw [eq_of_beq h2, scan_step_comma]
      have hr : isRecognizedChar ',' = true := by decide
      simp [hr]
    | false =>
      cases h3 : c == '=' with
      | true =>
        rw [eq_of_beq h3, scan_step_eqmark]
        have hr : isRecognizedChar '=' = true := by decide
        simp [hr]
      | false =>
        cases h4 : isAlphaUnd c with
        | true =>
          rw [scan_step_alpha st h4]
          have hr := reco_of_alpha h4
          cases hf : st.fr_set <;> simp [hf, hr]
        | false =>
          have hr : isRecognizedChar c = false := by
            simp [isRecognizedChar, h1, h2, h3, h4]
          rw [scan_step_bad st hr]
          simp [hr, str_data_push]

theorem scan_step_frset (st : ScanState) (c : Char) :
    (scan_step st c).fr_set = (st.fr_set || c == '=') := by
  cases h1 : (is_digit c || c == '.') with
  | true =>
    rw [scan_step_digitdot st h1]
    have h3 : (c == '=') = false :=
      beq_false_of_pred (fun c => is_digit c || c == '.') h1 (by decide)
    simp [h3]
  | false =>
    cases h2 : c == ',' with
    | true =>
      rw [eq_of_beq h2, scan_step_comma]
      simp
    | false =>
      cases h3 : c == '=' with
      | true =>
        rw [eq_of_beq h3, scan_step_eqmark]
        simp
      | false =>
        cases h4 : isAlphaUnd c with
        | true =>
          rw [scan_step_alpha st h4]
          cases hf : st.fr_set <;> simp [hf, h3]
        | false =>
          have hr : isRecognizedChar c = false := by
            simp [isRecognizedChar, h1, h2, h3, h4]
          rw [scan_step_bad st hr]
          simp [h3]

theorem scan_step_exchange_nonalpha (st : ScanState) {c : Char}
    (h : isAlphaUnd c = false) : (scan_step st c).exchange = st.exchange := by
  cases h1 : (is_digit c || c == '.') with
  | true => rw [scan_step_digitdot st h1]
  | false =>
    cases h2 : c == ',' with
    | true => rw [eq_of_beq h2, scan_step_comma]
    | false =>
      cases h3 : c == '=' with
      | true => rw [eq_of_beq h3, scan_step_eqmark]
      | false =>
        have hr : isRecognizedChar c = false := by
          simp [isRecognizedChar, h1, h2, h3, h]
        rw [scan_step_bad st hr]

/-! ## Whole-scan characterizations -/

theorem scan_foldl_num (cs : List Char) : ∀ st : ScanState,
    (List.foldl scan_step st cs).num.data =
      st.num.data ++ (cs.filter isNumClass).map commaToDot := by
  induction cs with
  | nil => intro st; simp
  | cons c cs ih =>
    intro st
    rw [List.foldl_cons, ih, scan_step_num_data, List.filter_cons]
    cases h : isNumClass c <;> simp [h, List.append_assoc]

theorem scan_foldl_err (cs : List Char) : ∀ st : ScanState,
    (List.foldl scan_step st cs).err.data =
      st.err.data ++ cs.filter (fun c => !(isRecognizedChar c)) := by
  induction cs with
  | nil => intro st; simp
  | cons c cs ih =>
    intro st
    rw [List.foldl_cons, ih, scan_step_err_data, List.filter_cons]
    cases h : isRecognizedChar c <;> simp [h, List.append_assoc]

theorem scan_foldl_frset (cs : List Char) : ∀ st : ScanState,
    (List.foldl scan_step st cs).fr_set =
      (st.fr_set || cs.any (fun c => c == '=')) := by
  induction cs with
  | nil => intro st; simp
  | cons c cs ih =>
    intro st
    rw [List.foldl_cons, ih, scan_step_frset, List.any_cons]
    cases h : c == '=' <;> simp [h, Bool.or_assoc]

theorem scan_foldl_exchange_nonalpha (cs : List Char) : ∀ st : ScanState,
    (∀ c ∈ cs, isAlphaUnd c = false) →
    (List.foldl scan_step st cs).exchange = st.exchange := by
  induction cs with
  | nil => intro st _; rfl
  | cons c cs ih =>
    intro st h
    rw [List.foldl_cons, ih _ (fun d hd => h d (List.mem_cons_of_mem c hd)),
      scan_step_exchange_nonalpha st (h c (List.mem_cons_self c cs))]

theorem scan_foldl_alpha (cs : List Char) : ∀ st : ScanState,
    cs.all isAlphaUnd = true →
    ((st.fr_set = false →
        (List.foldl scan_step st cs).exchange.from_.data =
          st.exchange.from_.data ++ cs.map Char.toUpper ∧
        (List.foldl scan_step st cs).exchange.to_ = st.exchange.to_) ∧
     (st.fr_set = true →
        (List.foldl scan_step st cs).exchange.to_.data =
          st.exchange.to_.data ++ cs.map Char.toUpper ∧
        (List.foldl scan_step st cs).exchange.from_ = st.exchange.from_)) := by
  induction cs with
  | nil => intro st _; constructor <;> intro _ <;> simp
  | cons c cs ih =>
    intro st hall
    have hc : isAlphaUnd c = true := by
      have := List.all_eq_true.mp hall c (List.mem_cons_self c cs)
      exact this
    have hcs : cs.all isAlphaUnd = true := by
      rw [List.all_eq_true]
      intro d hd
      exact List.all_eq_true.mp hall d (List.mem_cons_of_mem c hd)
    constructor
    · intro hf
      rw [List.foldl_cons, scan_step_alpha st hc, if_pos hf]
      have ihspec := (ih { st with exchange :=
        { st.exchange with from_ := st.exchange.from_ ++ c.toUpper.toString } } hcs).1 hf
      rcases ihspec with ⟨h1, h2⟩
      constructor
      · rw [h1]
        simp [str_data_char_append, char_toString_data, List.append_assoc]
      · rw [h2]
    · intro hf
      rw [List.foldl_cons, scan_step_alpha st hc,
        if_neg (by rw [hf]; exact fun h => Bool.noConfusion h)]
      have ihspec := (ih { st with exchange :=
        { st.exchange with to_ := st.exchange.to_ ++ c.toUpper.toString } } hcs).2 hf
      rcases ihspec with ⟨h1, h2⟩
      constructor
      · rw [h1]
        simp [str_data_char_append, char_toString_data, List.append_assoc]
      · rw [h2]

theorem any_eqmark_false_of_numclass {cs : List Char} (h : cs.all isNumClass = true) :
    cs.any (fun c => c == '=') = false := by
  cases hx : cs.any (fun c => c == '=') with
  | false => rfl
  | true =>
    exfalso
    rcases List.any_eq_true.mp hx with ⟨c, hmem, hbeq⟩
    have hc := List.all_eq_true.mp h c hmem
    rw [numclass_not_eqmark hc] at hbeq
    exact Bool.noConfusion hbeq

theorem any_eqmark_false_of_alpha {cs : List Char} (h : cs.all isAlphaUnd = true) :
    cs.any (fun c => c == '=') = false := by
  cases hx : cs.any (fun c => c == '=') with
  | false => rfl
  | true =>
    exfalso
    rcases List.any_eq_true.mp hx with ⟨c, hmem, hbeq⟩
    have hc := List.all_eq_true.mp h c hmem
    rw [alphaUnd_not_eqmark hc] at hbeq
    exact Bool.noConfusion hbeq

theorem filter_numclass_eq_nil_of_alpha {cs : List Char} (h : cs.all isAlphaUnd = true) :
    cs.filter isNumClass = [] := by
  rw [List.filter_eq_nil_iff]
  intro c hmem hc
  rw [alpha_not_numclass (List.all_eq_true.mp h c hmem)] at hc
  exact Bool.noConfusion hc

theorem filter_bad_eq_nil_of_numclass {cs : List Char} (h : cs.all isNumClass = true) :
    cs.filter (fun c => !(isRecognizedChar c)) = [] := by
  rw [List.filter_eq_nil_iff]
  intro c hmem hc
  rw [reco_of_numclass (List.all_eq_true.mp h c hmem)] at hc
  exact Bool.noConfusion hc

theorem filter_bad_eq_nil_of_alpha {cs : List Char} (h : cs.all isAlphaUnd = true) :
    cs.filter (fun c => !(isRecognizedChar c)) = [] := by
  rw [List.filter_eq_nil_iff]
  intro c hmem hc
  rw [reco_of_alpha (List.all_eq_true.mp h c hmem)] at hc
  exact Bool.noConfusion hc

/-! ## Stage-1 token loop lemmas -/

theorem beq_false_of_head_ne {t u : String} (h : t.data.head? ≠ u.data.head?) :
    (t == u) = false := by
  cases hb : t == u with
  | false => rfl
  | true => exact absurd (congrArg (fun s : String => s.data.head?) (eq_of_beq hb)) h

theorem stage1_cons_plain (t : String) (rest : List String) (expr : String) {c : Char}
    {cs : List Char} (hdata : t.data = c :: cs) (hnum : isNumClass c = true) :
    stage1_loop (t :: rest) expr = stage1_loop rest (expr ++ t) := by
  have hhead : t.data.head? = some c := by rw [hdata]; rfl
  have hc : c ≠ '-' ∧ c ≠ '=' ∧ c ≠ '>' := by
    refine ⟨?_, ?_, ?_⟩ <;> rintro rfl <;> exact absurd hnum (by decide)
  have hflag : ∀ (u : String) (d : Char), u.data.head? = some d → c ≠ d →
      (t == u) = false := by
    intro u d hu hcd
    apply beq_false_of_head_ne
    rw [hhead, hu]
    intro h
    injection h with h'
    exact hcd h'
  have e01 : (t == "-h") = false := hflag ("-h") '-' rfl hc.1
  have e02 : (t == "--help") = false := hflag ("--help") '-' rfl hc.1
  have e03 : (t == "-V") = false := hflag ("-V") '-' rfl hc.1
  have e04 : (t == "--version") = false := hflag ("--version") '-' rfl hc.1
  have e05 : (t == "-lu") = false := hflag ("-lu") '-' rfl hc.1
  have e06 : (t == "--list-usual") = false := hflag ("--list-usual") '-' rfl hc.1
  have e07 : (t == "-l") = false := hflag ("-l") '-' rfl hc.1
  have e08 : (t == "--list") = false := hflag ("--list") '-' rfl hc.1
  have e09 : (t == "-la") = false := hflag ("-la") '-' rfl hc.1
  have e10 : (t == "--list-all") = false := hflag ("--list-all") '-' rfl hc.1
  have e11 : (t == "->") = false := hflag ("->") '-' rfl hc.1
  have e12 : (t == "=>") = false := hflag ("=>") '=' rfl hc.2.1
  have e13 : (t == "=") = false := hflag ("=") '=' rfl hc.2.1
  have e14 : (t == ">") = false := hflag (">") '>' rfl hc.2.2
  have hdash : starts_with_dash t = false := by
    rw [starts_with_dash, hhead]
    have : c ≠ '-' := hc.1
    simp [this]
  simp [stage1_loop, e01, e02, e03, e04, e05, e06, e07, e08, e09, e10, e11, e12,
    e13, e14, hdash]

theorem stage1_marker {t : String} (h : t = "->" ∨ t = "=>" ∨ t = "=" ∨ t = ">")
    (rest : List String) (expr : String) :
    stage1_loop (t :: rest) expr = stage1_loop rest (expr ++ "=") := by
  rcases h with rfl | rfl | rfl | rfl <;> rfl

theorem stage1_subst_marker (pre : List String) {t1 t2 : String}
    (h1 : t1 = "->" ∨ t1 = "=>" ∨ t1 = "=" ∨ t1 = ">")
    (h2 : t2 = "->" ∨ t2 = "=>" ∨ t2 = "=" ∨ t2 = ">") :
    ∀ (post : List String) (expr : String),
    stage1_loop (pre ++ t1 :: post) expr = stage1_loop (pre ++ t2 :: post) expr := by
  induction pre with
  | nil =>
    intro post expr
    simp only [List.nil_append]
    rw [stage1_marker h1, stage1_marker h2]
  | cons p pre ih =>
    intro post expr
    simp only [List.cons_append, stage1_loop]
    split_ifs
    · rfl
    · rfl
    · rfl
    · rfl
    · exact ih post (expr ++ "=")
    · rfl
    · exact ih post (expr ++ p)

/-! ## Claims -/

/-- C3: the cache freshness check returns false (stale) exactly when the
snapshot does not exist, it cannot be opened, its metadata or timestamp cannot
be determined, or the u64 age `now - lastModified` is at least 3600; a snapshot
aged 3601 seconds is stale, 3599 is fresh, and exactly 3600 is stale.  The
subtraction is the source's `u64` subtraction, which equals ordinary
subtraction whenever `lastModified <= now`. -/
theorem claim_c3_freshness :
    (∀ fs : FsState, 3600 ≤ fs.now.getD 0 → fs.now.getD 0 < 2 ^ 64 →
      (check_rates_file fs = false ↔
        fs.fileExists = false ∨ fs.openOk = false ∨ fs.metaOk = false ∨
        fs.modified = none ∨
        ∃ m, fs.modified = some m ∧ 3600 ≤ u64_sub (fs.now.getD 0) m)) ∧
    (∀ n m : Nat, m ≤ n → n < 2 ^ 64 → u64_sub n m = n - m) ∧
    (∀ N : Nat, 3601 ≤ N → N < 2 ^ 64 →
      check_rates_file ⟨true, true, true, some (N - 3601), some N⟩ = false) ∧
    (∀ N : Nat, 3599 ≤ N → N < 2 ^ 64 →
      check_rates_file ⟨true, true, true, some (N - 3599), some N⟩ = true) ∧
    (∀ N : Nat, 3600 ≤ N → N < 2 ^ 64 →
      check_rates_file ⟨true, true, true, some (N - 3600), some N⟩ = false) := by
  refine ⟨?_, ?_, ?_, ?_, ?_⟩
  · intro fs h1 h2
    rcases fs with ⟨fe, oo, mo, md, no⟩
    simp only at h1 h2
    cases fe with
    | false => simp [check_rates_file]
    | true =>
      cases oo with
      | false => simp [check_rates_file]
      | true =>
        cases mo with
        | false => simp [check_rates_file]
        | true =>
          cases md with
          | none =>
            have hs : 3600 ≤ u64_sub (no.getD 0) 0 := by
              unfold u64_sub
              omega
            simp [check_rates_file, hs]
          | some m =>
            by_cases hs : 3600 ≤ u64_sub (no.getD 0) ((some m).getD 0)
            · simp only [Option.getD_some] at hs
              simp [check_rates_file, hs]
            · simp only [Option.getD_some] at hs
              simp [check_rates_file, hs]
  · intro n m h1 h2
    unfold u64_sub
    omega
  · intro N h1 h2
    have hs : 3600 ≤ u64_sub N (N - 3601) := by unfold u64_sub; omega
    simp [check_rates_file, hs]
  · intro N h1 h2
    have hs : ¬ 3600 ≤ u64_sub N (N - 3599) := by unfold u64_sub; omega
    simp [check_rates_file, hs]
  · intro N h1 h2
    have hs : 3600 ≤ u64_sub N (N - 3600) := by unfold u64_sub; omega
    simp [check_rates_file, hs]

/-- Witness for C3: at `now = 10000` a snapshot 3601 seconds old is stale. -/
theorem claim_c3_witness :
    check_rates_file ⟨true, true, true, some (10000 - 3601), some 10000⟩ = false :=
  claim_c3_freshness.2.2.1 10000 (by decide) (by decide)

/-- C9: the freshness age is the wrapping u64 subtraction `cur - file`, so a
snapshot whose mtime lies in the future by at most `2^64 - 3600` seconds wraps
to an age of at least 3600 and is judged stale. -/
theorem claim_c9_future_mtime :
    ∀ cur fd : Nat, cur < fd → fd < 2 ^ 64 → fd - cur ≤ 2 ^ 64 - 3600 →
    3600 ≤ u64_sub cur fd ∧
    check_rates_file ⟨true, true, true, some fd, some cur⟩ = false := by
  intro cur fd h1 h2 h3
  have hs : 3600 ≤ u64_sub cur fd := by unfold u64_sub; omega
  exact ⟨hs, by simp [check_rates_file, hs]⟩

/-- Witness for C9: a snapshot dated 4000 seconds into the future is stale. -/
theorem claim_c9_witness :
    3600 ≤ u64_sub 1000 5000 ∧
    check_rates_file ⟨true, true, true, some 5000, some 1000⟩ = false :=
  claim_c9_future_mtime 1000 5000 (by decide) (by decide) (by decide)

/-- C4: conversion fails naming the missing code, checking `from` (exit 4)
before `to` (exit 5); otherwise `rate = table[to] / table[from]` and
`amount_to = amount_from * rate`. -/
theorem claim_c4_convert :
    ∀ (T : List (String × ℚ)) (e : ExchangeProcess),
    (hm_contains T e.from_ = false → convert_step T e = .notFound e.from_ 4) ∧
    (hm_contains T e.from_ = true → hm_contains T e.to_ = false →
      convert_step T e = .notFound e.to_ 5) ∧
    (hm_contains T e.from_ = true → hm_contains T e.to_ = true →
      convert_step T e =
        .ok { e with rate := hm_get T e.to_ / hm_get T e.from_,
                     amount_to := e.amount_from * (hm_get T e.to_ / hm_get T e.from_) }) := by
  intro T e
  refine ⟨?_, ?_, ?_⟩
  · intro h; simp [convert_step, h]
  · intro h1 h2; simp [convert_step, h1, h2]
  · intro h1 h2; simp [convert_step, h1, h2]

/-- Witness for C4: on `{"EUR": 1, "USD": 1.1}` converting 10 EUR to USD gives
rate 1.1 and amount 11. -/
theorem claim_c4_witness :
    convert_step ratesEx reqEx =
      .ok { from_ := "EUR", to_ := "USD", rate := mkRat 11 10,
            amount_from := 10, amount_to := 11 } := by
  have h := (claim_c4_convert ratesEx reqEx).2.2 (by decide) (by decide)
  rw [h]
  with_unfolding_all decide

/-- C6: the character scan runs to the end of the expression, accumulating
every character outside the recognized classes, in order; when any such
character exists the parse fails carrying the whole fragment. -/
theorem claim_c6_unknown_expression :
    ∀ (e : String) (ex : ExchangeProcess),
    e.data.filter (fun c => !(isRecognizedChar c)) ≠ [] →
    (e.data.foldl scan_step
        { exchange := ex, fr_set := false, num := "", err := "" }).err.data =
      e.data.filter (fun c => !(isRecognizedChar c)) ∧
    (parse_expression ex e).1 =
      .ArgumentErrorUnknownExpression ⟨e.data.filter (fun c => !(isRecognizedChar c))⟩ := by
  intro e ex h
  have herr := scan_foldl_err e.data
    { exchange := ex, fr_set := false, num := "", err := "" }
  have hd : ("" : String).data = [] := rfl
  rw [hd, List.nil_append] at herr
  refine ⟨herr, ?_⟩
  simp only [parse_expression]
  have hlen : (e.data.foldl scan_step
      { exchange := ex, fr_set := false, num := "", err := "" }).err.length > 0 := by
    rw [str_length_data, herr]
    exact List.length_pos.mpr h
  rw [if_pos hlen]
  exact congrArg ParseRet.ArgumentErrorUnknownExpression (String.ext herr)

/-- Witness for C6: `"a$b#"` fails with the fragment `"$#"` (both offending
characters, in order). -/
theorem claim_c6_witness :
    (parse_expression ExchangeProcess.new ("a$b#")).1 =
      .ArgumentErrorUnknownExpression ("$#") := by
  have h := claim_c6_unknown_expression ("a$b#") ExchangeProcess.new (by decide)
  exact h.2.trans (by decide)

/-- C8: when the expression has no invalid characters and its numeric buffer is
empty or unparseable, the parse succeeds with the amount defaulted to 1. -/
theorem claim_c8_default_amount :
    ∀ (e : String) (ex : ExchangeProcess),
    e.data.filter (fun c => !(isRecognizedChar c)) = [] →
    parse_f64 (e.data.foldl scan_step
      { exchange := ex, fr_set := false, num := "", err := "" }).num = none →
    (parse_expression ex e).1 = .Success ∧
    (parse_expression ex e).2.amount_from = 1 := by
  intro e ex herrnil hnum
  have herr := scan_foldl_err e.data
    { exchange := ex, fr_set := false, num := "", err := "" }
  have hd : ("" : String).data = [] := rfl
  rw [hd, List.nil_append, herrnil] at herr
  have hlen : ¬ (e.data.foldl scan_step
      { exchange := ex, fr_set := false, num := "", err := "" }).err.length > 0 := by
    rw [str_length_data, herr]
    simp
  simp only [parse_expression]
  rw [if_neg hlen]
  refine ⟨rfl, ?_⟩
  simp [hnum]

/-- Witness for C8: the bare pair `"USD=EUR"` parses with amount 1. -/
theorem claim_c8_witness :
    (parse_expression ExchangeProcess.new ("USD=EUR")).1 = .Success ∧
    (parse_expression ExchangeProcess.new ("USD=EUR")).2.amount_from = 1 :=
  claim_c8_default_amount ("USD=EUR") ExchangeProcess.new (by decide) (by decide)

/-- C10: digits, dots and commas are appended to the single numeric buffer no
matter where they occur relative to `'='`; `"1USD=2EUR"` therefore parses with
amount 12 and `"USD=EUR5"` with amount 5. -/
theorem claim_c10_num_position :
    ∀ (e : String) (ex : ExchangeProcess),
    (e.data.foldl scan_step
        { exchange := ex, fr_set := false, num := "", err := "" }).num.data =
      (e.data.filter isNumClass).map commaToDot ∧
    parse_arguments [("1USD=2EUR")] ExchangeProcess.new =
      (.Success, { from_ := "USD", to_ := "EUR", rate := 0, amount_from := 12,
                   amount_to := 0 }) ∧
    parse_arguments [("USD=EUR5")] ExchangeProcess.new =
      (.Success, { from_ := "USD", to_ := "EUR", rate := 0, amount_from := 5,
                   amount_to := 0 }) := by
  intro e ex
  refine ⟨?_, ?_, ?_⟩
  · have hnum := scan_foldl_num e.data
      { exchange := ex, fr_set := false, num := "", err := "" }
    have hd : ("" : String).data = [] := rfl
    rw [hd, List.nil_append] at hnum
    exact hnum
  · with_unfolding_all decide
  · with_unfolding_all decide

/-- Witness for C10: the concrete split-digit input `"1USD=2EUR"`. -/
theorem claim_c10_witness :
    parse_arguments [("1USD=2EUR")] ExchangeProcess.new =
      (.Success, { from_ := "USD", to_ := "EUR", rate := 0, amount_from := 12,
                   amount_to := 0 }) :=
  (claim_c10_num_position ("1USD=2EUR") ExchangeProcess.new).2.1

/-- C7: every marker spelling in `{"->", "=>", "=", ">"}` is normalized to a
single `'='` appended to the expression buffer, so substituting one spelling
for another anywhere in the token list leaves the parse result unchanged. -/
theorem claim_c7_marker_spellings :
    (∀ t : String, (t = "->" ∨ t = "=>" ∨ t = "=" ∨ t = ">") →
      ∀ (rest : List String) (expr : String),
      stage1_loop (t :: rest) expr = stage1_loop rest (expr ++ "=")) ∧
    (∀ (pre post : List String) (t1 t2 : String) (ex : ExchangeProcess),
      (t1 = "->" ∨ t1 = "=>" ∨ t1 = "=" ∨ t1 = ">") →
      (t2 = "->" ∨ t2 = "=>" ∨ t2 = "=" ∨ t2 = ">") →
      parse_arguments (pre ++ t1 :: post) ex = parse_arguments (pre ++ t2 :: post) ex) := by
  constructor
  · intro t h rest expr
    exact stage1_marker h rest expr
  · intro pre post t1 t2 ex h1 h2
    unfold parse_arguments
    rw [if_neg (by simp), if_neg (by simp)]
    rw [stage1_subst_marker pre h1 h2 post ("")]

/-- Witness for C7: `5USD -> EUR` and `5USD = EUR` parse identically. -/
theorem claim_c7_witness :
    parse_arguments [("5USD"), ("->"), ("EUR")] ExchangeProcess.new =
      parse_arguments [("5USD"), ("="), ("EUR")] ExchangeProcess.new :=
  claim_c7_marker_spellings.2 [("5USD")] [("EUR")] ("->") ("=") ExchangeProcess.new
    (Or.inl rfl) (Or.inr (Or.inr (Or.inl rfl)))

/-- Helper for the run-level ordering: `run_after_cache` either stops at the
load (on failure or panic) or records the parse immediately after the load. -/
theorem run_after_cache_events (env : Env) (evs : List Event) :
    (run_after_cache env evs).events = evs ++ [.loadRates] ∨
    (run_after_cache env evs).events = evs ++ [.loadRates, .parseArgs] := by
  unfold run_after_cache
  cases hl : load_rates_file_from_disk env.loadOpenOk env.content env.parsed with
  | fail => left; rfl
  | panicked => left; rfl
  | ok rates =>
    right
    rcases hp : parse_arguments env.args ExchangeProcess.new with ⟨ret, e2⟩
    cases ret
    case Success =>
      dsimp only
      cases hcv : convert_step rates e2 <;> rfl
    all_goals rfl

/-- C5 counterexample: with `--help` as the only CLI token and a stale cache,
the run performs the freshness check, the download and the rate load before the
argument parse; the flag does not stop cache or fetch activity, so the claimed
order (parse first, flags short-circuiting before any fetch) is false. -/
theorem claim_c5_counterexample :
    (run envHelp).events = [.checkRates, .download, .loadRates, .parseArgs] ∧
    (run envHelp).events.head? ≠ some Event.parseArgs ∧
    Event.download ∈ (run envHelp).events := by
  refine ⟨?_, ?_, ?_⟩ <;> with_unfolding_all decide

/-- C5 amended: the cache freshness check always comes first, the refresh and
the rate-table load precede every argument parse, and a recognized flag at the
head of the remaining token list short-circuits the token loop itself
regardless of the expression accumulated so far. -/
theorem claim_c5_amended :
    (∀ env : Env, Event.parseArgs ∈ (run env).events →
      (run env).events = [.checkRates, .loadRates, .parseArgs] ∨
      (run env).events = [.checkRates, .download, .loadRates, .parseArgs]) ∧
    (∀ (rest : List String) (expr : String),
      stage1_loop (("-h") :: rest) expr = .exitHelp ∧
      stage1_loop (("--help") :: rest) expr = .exitHelp ∧
      stage1_loop (("-V") :: rest) expr = .exitVersion ∧
      stage1_loop (("--version") :: rest) expr = .exitVersion ∧
      stage1_loop (("-l") :: rest) expr = .usual ∧
      stage1_loop (("-lu") :: rest) expr = .usual ∧
      stage1_loop (("--list") :: rest) expr = .usual ∧
      stage1_loop (("--list-usual") :: rest) expr = .usual ∧
      stage1_loop (("-la") :: rest) expr = .completeList ∧
      stage1_loop (("--list-all") :: rest) expr = .completeList) := by
  constructor
  · intro env hmem
    unfold run at hmem ⊢
    by_cases hc : check_rates_file env.fs = false
    · rw [if_pos hc] at hmem ⊢
      by_cases hd : download_rates_file env.createOk env.netOk = false
      · rw [if_pos hd] at hmem
        simp at hmem
      · rw [if_neg hd] at hmem ⊢
        rcases run_after_cache_events env [Event.checkRates, Event.download] with h | h
        · rw [h] at hmem
          simp at hmem
        · rw [h]
          right
          rfl
    · rw [if_neg hc] at hmem ⊢
      rcases run_after_cache_events env [Event.checkRates] with h | h
      · rw [h] at hmem
        simp at hmem
      · rw [h]
        left
        rfl
  · intro rest expr
    refine ⟨?_, ?_, ?_, ?_, ?_, ?_, ?_, ?_, ?_, ?_⟩ <;> rfl

/-- Witness for C5: the `--help` environment reaches the parse, and its trace
places the parse strictly after the cache and load phase. -/
theorem claim_c5_witness :
    (run envHelp).events = [.checkRates, .loadRates, .parseArgs] ∨
    (run envHelp).events = [.checkRates, .download, .loadRates, .parseArgs] :=
  claim_c5_amended.1 envHelp (by with_unfolding_all decide)

/-- C2 counterexample: a non-empty payload that is not well-formed JSON makes
`load_rates_file_from_disk` panic on `unwrap` (the run aborts) instead of
returning the error that exits with code 2. -/
theorem claim_c2_counterexample :
    load_rates_file_from_disk envBadJson.loadOpenOk envBadJson.content
      envBadJson.parsed = .panicked ∧
    (run envBadJson).outcome = .panicked ∧
    (run envBadJson).outcome ≠ .exit 2 := by
  refine ⟨?_, ?_, ?_⟩ <;> with_unfolding_all decide

/-- C2 amended: the loader returns `false` (exit code 2) exactly when the file
cannot be opened or the payload is empty; a non-empty payload that is not a
JSON object with a `"rates"` object, or that maps some rate to a non-numeric
value, makes it panic via `unwrap`, aborting the run without exit code 2.  A
rates iteration fails exactly when some entry value is not a JSON number. -/
theorem claim_c2_amended :
    (∀ (openOk : Bool) (content : String) (parsed : Option JValue),
      (load_rates_file_from_disk openOk content parsed = .fail ↔
        openOk = false ∨ content.length = 0) ∧
      (openOk = true → content.length ≠ 0 →
        (load_rates_file_from_disk openOk content parsed = .panicked ↔
          parsed = none ∨ ∃ j, parsed = some j ∧
            (json_rates j = none ∨ ∃ entries, json_rates j = some entries ∧
              ratesLoop [] entries = none)))) ∧
    (∀ (m : List (String × ℚ)) (entries : List (String × JValue)),
      ratesLoop m entries = none ↔ ∃ p ∈ entries, p.2.asF64 = none) ∧
    (∀ env : Env,
      (check_rates_file env.fs = true ∨
        download_rates_file env.createOk env.netOk = true) →
      (load_rates_file_from_disk env.loadOpenOk env.content env.parsed = .fail →
        (run env).outcome = .exit 2) ∧
      (load_rates_file_from_disk env.loadOpenOk env.content env.parsed = .panicked →
        (run env).outcome = .panicked)) := by
  refine ⟨?_, ?_, ?_⟩
  · intro openOk content parsed
    constructor
    · cases openOk with
      | false => simp [load_rates_file_from_disk]
      | true =>
        by_cases hlen : content.length = 0
        · simp [load_rates_file_from_disk, hlen]
        · cases parsed with
          | none => simp [load_rates_file_from_disk, hlen]
          | some j =>
            cases hjr : json_rates j with
            | none => simp [load_rates_file_from_disk, hlen, hjr]
            | some entries =>
              cases hrl : ratesLoop [] entries with
              | none => simp [load_rates_file_from_disk, hlen, hjr, hrl]
              | some m => simp [load_rates_file_from_disk, hlen, hjr, hrl]
    · intro hopen hlen
      subst hopen
      cases parsed with
      | none => simp [load_rates_file_from_disk, hlen]
      | some j =>
        cases hjr : json_rates j with
        | none => simp [load_rates_file_from_disk, hlen, hjr]
        | some entries =>
          cases hrl : ratesLoop [] entries with
          | none => simp [load_rates_file_from_disk, hlen, hjr, hrl]
          | some m => simp [load_rates_file_from_disk, hlen, hjr, hrl]
  · intro m entries
    induction entries generalizing m with
    | nil => simp [ratesLoop]
    | cons p rest ih =>
      rcases p with ⟨k, v⟩
      cases hv : v.asF64 with
      | none => simp [ratesLoop, hv]
      | some q => simp [ratesLoop, hv, ih]
  · intro env hreach
    have hrun : run env = run_after_cache env [Event.checkRates] ∨
        run env = run_after_cache env [Event.checkRates, Event.download] := by
      unfold run
      by_cases hc : check_rates_file env.fs = false
      · rcases hreach with h | h
        · rw [hc] at h; exact Bool.noConfusion h
        · right
          rw [if_pos hc, if_neg (by rw [h]; exact fun hx => Bool.noConfusion hx)]
      · left
        rw [if_neg hc]
    constructor
    · intro hl
      rcases hrun with h | h <;> rw [h] <;> simp [run_after_cache, hl]
    · intro hl
      rcases hrun with h | h <;> rw [h] <;> simp [run_after_cache, hl]

/-- Witness for C2 (amended): an unopenable snapshot loads as a plain failure,
and a non-empty unparseable payload panics. -/
theorem claim_c2_witness :
    load_rates_file_from_disk false ("x") none = .fail ∧
    load_rates_file_from_disk true ("x") none = .panicked := by
  constructor
  · exact ((claim_c2_amended.1 false ("x") none).1).mpr (Or.inl rfl)
  · exact ((claim_c2_amended.1 true ("x") none).2 rfl (by decide)).mpr (Or.inl rfl)

/-! ## Helpers for the full-expression parse (C1) -/

theorem parsecond_of_valid {n : String} (h : ValidDecimal n) :
    ParseF64Cond (n.data.map commaToDot) := by
  obtain ⟨hall, hany, hcount⟩ := h
  refine ⟨?_, ?_, ?_⟩
  · rw [List.all_eq_true]
    intro d hd
    rcases List.mem_map.mp hd with ⟨c, hc, rfl⟩
    have hcn := List.all_eq_true.mp hall c hc
    cases hcm : c == ',' with
    | true =>
      rw [eq_of_beq hcm]
      decide
    | false =>
      have hct : commaToDot c = c := by simp [commaToDot, hcm]
      rw [hct]
      rcases Bool.or_eq_true_iff.mp hcn with hdd | hcm2
      · exact hdd
      · rw [hcm2] at hcm; exact Bool.noConfusion hcm
  · rw [List.any_eq_true]
    rcases List.any_eq_true.mp hany with ⟨c, hc, hdig⟩
    refine ⟨commaToDot c, List.mem_map.mpr ⟨c, hc, rfl⟩, ?_⟩
    have hct : commaToDot c = c := by simp [commaToDot, digit_not_comma hdig]
    rw [hct]
    exact hdig
  · rw [List.countP_map]
    have heq : n.data.countP ((fun c => c == '.') ∘ commaToDot) =
        n.data.countP (fun c => c == '.' || c == ',') := by
      apply List.countP_congr
      intro c _
      cases hcm : c == ',' with
      | true =>
        rw [eq_of_beq hcm]
        simp [commaToDot]
      | false =>
        have hct : commaToDot c = c := by simp [commaToDot, hcm]
        simp [Function.comp, hct, hcm]
    rw [heq]
    exact hcount

theorem scan_segments (ncs Acs Bcs : List Char) (st0 : ScanState)
    (hnum : ncs.all isNumClass = true) (hA : Acs.all isAlphaUnd = true)
    (hB : Bcs.all isAlphaUnd = true) (hfr0 : st0.fr_set = false) :
    (Bcs.foldl scan_step
        (scan_step (Acs.foldl scan_step (ncs.foldl scan_step st0)) '=')).exchange.from_.data =
      st0.exchange.from_.data ++ Acs.map Char.toUpper ∧
    (Bcs.foldl scan_step
        (scan_step (Acs.foldl scan_step (ncs.foldl scan_step st0)) '=')).exchange.to_.data =
      st0.exchange.to_.data ++ Bcs.map Char.toUpper ∧
    (Bcs.foldl scan_step
        (scan_step (Acs.foldl scan_step (ncs.foldl scan_step st0)) '=')).num.data =
      st0.num.data ++ ncs.map commaToDot ∧
    (Bcs.foldl scan_step
        (scan_step (Acs.foldl scan_step (ncs.foldl scan_step st0)) '=')).err.data =
      st0.err.data := by
  have h1ex : (ncs.foldl scan_step st0).exchange = st0.exchange :=
    scan_foldl_exchange_nonalpha ncs st0
      (fun c hc => numclass_not_alpha (List.all_eq_true.mp hnum c hc))
  have h1fr : (ncs.foldl scan_step st0).fr_set = false := by
    rw [scan_foldl_frset, hfr0, any_eqmark_false_of_numclass hnum]
    rfl
  have h1num : (ncs.foldl scan_step st0).num.data =
      st0.num.data ++ ncs.map commaToDot := by
    rw [scan_foldl_num, List.filter_eq_self.mpr (List.all_eq_true.mp hnum)]
  have h1err : (ncs.foldl scan_step st0).err.data = st0.err.data := by
    rw [scan_foldl_err, filter_bad_eq_nil_of_numclass hnum, List.append_nil]
  have h2pair := (scan_foldl_alpha Acs (ncs.foldl scan_step st0) hA).1 h1fr
  have h2num : (Acs.foldl scan_step (ncs.foldl scan_step st0)).num.data =
      st0.num.data ++ ncs.map commaToDot := by
    rw [scan_foldl_num, filter_numclass_eq_nil_of_alpha hA, List.map_nil,
      List.append_nil, h1num]
  have h2err : (Acs.foldl scan_step (ncs.foldl scan_step st0)).err.data =
      st0.err.data := by
    rw [scan_foldl_err, filter_bad_eq_nil_of_alpha hA, List.append_nil, h1err]
  have h3 := scan_step_eqmark (Acs.foldl scan_step (ncs.foldl scan_step st0))
  have h3ex : (scan_step (Acs.foldl scan_step (ncs.foldl scan_step st0)) '=').exchange =
      (Acs.foldl scan_step (ncs.foldl scan_step st0)).exchange := by
    rw [h3]
  have h3fr : (scan_step (Acs.foldl scan_step (ncs.foldl scan_step st0)) '=').fr_set =
      true := by
    rw [h3]
  have h3num : (scan_step (Acs.foldl scan_step (ncs.foldl scan_step st0)) '=').num =
      (Acs.foldl scan_step (ncs.foldl scan_step st0)).num := by
    rw [h3]
  have h3err : (scan_step (Acs.foldl scan_step (ncs.foldl scan_step st0)) '=').err =
      (Acs.foldl scan_step (ncs.foldl scan_step st0)).err := by
    rw [h3]
  have h4pair := (scan_foldl_alpha Bcs
    (scan_step (Acs.foldl scan_step (ncs.foldl scan_step st0)) '=') hB).2 h3fr
  refine ⟨?_, ?_, ?_, ?_⟩
  · rw [h4pair.2, h3ex, h2pair.1, h1ex]
  · rw [h4pair.1, h3ex, h2pair.2, h1ex]
  · rw [scan_foldl_num, filter_numclass_eq_nil_of_alpha hB, List.map_nil,
      List.append_nil, h3num, h2num]
  · rw [scan_foldl_err, filter_bad_eq_nil_of_alpha hB, List.append_nil, h3err, h2err]

/-- C1: for every valid decimal string `n` (with `'.'` or `','`) and all
alphabetic codes `A`, `B`, parsing the single token `"{n}{A}={B}"` succeeds
and yields `from = upper A`, `to = upper B`, and the amount denoted by `n`
with `','` normalized to `'.'` (the numeric buffer parses, so the 1.0 default
is not taken). -/
theorem claim_c1_parse_valid_expression :
    ∀ (n A B : String), ValidDecimal n →
    A.data.all is_ascii_alpha = true → B.data.all is_ascii_alpha = true →
    parse_f64 (normComma n) = some (decValue (normComma n).data) ∧
    (parse_arguments [n ++ A ++ "=" ++ B] ExchangeProcess.new).1 = .Success ∧
    (parse_arguments [n ++ A ++ "=" ++ B] ExchangeProcess.new).2.from_ = upperStr A ∧
    (parse_arguments [n ++ A ++ "=" ++ B] ExchangeProcess.new).2.to_ = upperStr B ∧
    (parse_arguments [n ++ A ++ "=" ++ B] ExchangeProcess.new).2.amount_from =
      decValue (normComma n).data := by
  intro n A B hval hA hB
  have hvd := hval
  obtain ⟨hall, hany, hcount⟩ := hval
  have hpf : parse_f64 (normComma n) = some (decValue (normComma n).data) := by
    unfold parse_f64
    rw [if_pos]
    exact parsecond_of_valid hvd
  obtain ⟨c0, cs0, hn⟩ : ∃ c cs, n.data = c :: cs := by
    cases hd : n.data with
    | nil =>
      rw [hd] at hany
      exact absurd hany (by decide)
    | cons c cs => exact ⟨c, cs, rfl⟩
  have hc0 : isNumClass c0 = true :=
    List.all_eq_true.mp hall c0 (by rw [hn]; exact List.mem_cons_self c0 cs0)
  have hAu : A.data.all isAlphaUnd = true := by
    rw [List.all_eq_true]
    intro d hd
    have h := List.all_eq_true.mp hA d hd
    simp [isAlphaUnd, h]
  have hBu : B.data.all isAlphaUnd = true := by
    rw [List.all_eq_true]
    intro d hd
    have h := List.all_eq_true.mp hB d hd
    simp [isAlphaUnd, h]
  have heqd : ("=" : String).data = ['='] := rfl
  have htok : (n ++ A ++ "=" ++ B).data = n.data ++ (A.data ++ ('=' :: B.data)) := by
    rw [str_data_append, str_data_append, str_data_append, heqd]
    simp [List.append_assoc]
  have hdata : (n ++ A ++ "=" ++ B).data =
      c0 :: (cs0 ++ (A.data ++ ('=' :: B.data))) := by
    rw [htok, hn]
    rfl
  have hstage : stage1_loop [n ++ A ++ "=" ++ B] ("") = .expr (n ++ A ++ "=" ++ B) := by
    rw [stage1_cons_plain (n ++ A ++ "=" ++ B) [] ("") hdata hc0, str_empty_append]
    rfl
  have hpa : parse_arguments [n ++ A ++ "=" ++ B] ExchangeProcess.new =
      parse_expression ExchangeProcess.new (n ++ A ++ "=" ++ B) := by
    unfold parse_arguments
    rw [if_neg (by simp), hstage]
  obtain ⟨hsfrom, hsto, hsnum, hserr⟩ := scan_segments n.data A.data B.data
    { exchange := ExchangeProcess.new, fr_set := false, num := "", err := "" }
    hall hAu hBu rfl
  have hsplit : (n ++ A ++ "=" ++ B).data.foldl scan_step
      { exchange := ExchangeProcess.new, fr_set := false, num := "", err := "" } =
      B.data.foldl scan_step (scan_step (A.data.foldl scan_step (n.data.foldl scan_step
        { exchange := ExchangeProcess.new, fr_set := false, num := "", err := "" })) '=') := by
    rw [htok, List.foldl_append, List.foldl_append, List.foldl_cons]
  have hlen : ¬ (B.data.foldl scan_step (scan_step (A.data.foldl scan_step
      (n.data.foldl scan_step
        { exchange := ExchangeProcess.new, fr_set := false, num := "", err := "" })) '=')).err.length > 0 := by
    rw [str_length_data, hserr]
    simp
  have hmaster : parse_expression ExchangeProcess.new (n ++ A ++ "=" ++ B) =
      (.Success,
        { (B.data.foldl scan_step (scan_step (A.data.foldl scan_step
            (n.data.foldl scan_step
              { exchange := ExchangeProcess.new, fr_set := false, num := "",
                err := "" })) '=')).exchange with
          amount_from := (parse_f64 (B.data.foldl scan_step (scan_step
            (A.data.foldl scan_step (n.data.foldl scan_step
              { exchange := ExchangeProcess.new, fr_set := false, num := "",
                err := "" })) '=')).num).getD 1 }) := by
    simp only [parse_expression]
    rw [hsplit, if_neg hlen]
  have hXnum : (B.data.foldl scan_step (scan_step (A.data.foldl scan_step
      (n.data.foldl scan_step
        { exchange := ExchangeProcess.new, fr_set := false, num := "", err := "" })) '=')).num =
      normComma n :=
    String.ext (hsnum.trans rfl)
  refine ⟨hpf, ?_, ?_, ?_, ?_⟩
  · rw [hpa, hmaster]
  · rw [hpa, hmaster]
    exact String.ext (hsfrom.trans rfl)
  · rw [hpa, hmaster]
    exact String.ext (hsto.trans rfl)
  · rw [hpa, hmaster]
    dsimp only
    rw [hXnum, hpf]
    rfl

/-- Witness for C1: `"2,5eur=usd"` parses to 2.5 EUR into USD. -/
theorem claim_c1_witness :
    (parse_arguments [("2,5" ++ "eur" ++ "=" ++ "usd")] ExchangeProcess.new).1 =
      .Success ∧
    (parse_arguments [("2,5" ++ "eur" ++ "=" ++ "usd")] ExchangeProcess.new).2.from_ =
      ("EUR") ∧
    (parse_arguments [("2,5" ++ "eur" ++ "=" ++ "usd")] ExchangeProcess.new).2.to_ =
      ("USD") ∧
    (parse_arguments [("2,5" ++ "eur" ++ "=" ++ "usd")] ExchangeProcess.new).2.amount_from =
      mkRat 5 2 := by
  have h := claim_c1_parse_valid_expression ("2,5") ("eur") ("usd")
    (by decide) (by decide) (by decide)
  exact ⟨h.2.1, h.2.2.1.trans (by decide), h.2.2.2.1.trans (by decide),
    h.2.2.2.2.trans (by with_unfolding_all decide)⟩
